import Mathlib

set_option maxHeartbeats 1000000

/-!
Verification of the live-ingestion core of the poe-watcher repository.

The development shallowly embeds, from `src/src-tauri/src/log_watcher.rs` and
`src/src-tauri/src/api_client.rs`:

* the line parser `LogWatcher::parse_line` (the five regular expressions are
  embedded as dedicated matching functions that reproduce the leftmost-first
  search and the greedy or lazy capture preferences of the Rust `regex` crate;
  `.` does not match a newline; `\d` is modelled as an ASCII digit);
* the read pass `LogWatcher::read_new_lines` and one iteration of
  `LogWatcher::watch_loop` (the file is modelled as a list of characters, the
  shared cursor as an explicit `Nat` passed in and returned; I/O failures are
  injected as explicit parameters);
* `LogWatcher::start` (the filesystem outcomes it branches on are explicit
  parameters);
* the token-bucket `RateLimiter` (the `f64` quantities are modelled as `ℚ`;
  all arithmetic performed by the claims is exact in `f64` as well);
* the TTL response cache (`PoeApiClient::get_cached` / `cache_response`, the
  `HashMap` modelled as an association list with overwriting insert, `Instant`
  as a `Nat`) and the shared fetch protocol of `get_characters`, `get_items`
  and `get_passive_skills` (identical in the source up to URL, TTL and response
  type; deserialization is an abstract `decode` parameter, percent-encoding of
  the URL parameters is not modelled).
-/

abbrev Str := List Char

/-- Literal matching: returns the rest of `s` when the literal `p` is a prefix
of `s` (the building block for the literal parts of the regexes in
`LogWatcher::parse_line`). -/
def stripPrefixL : Str → Str → Option Str
  | [], s => some s
  | _ :: _, [] => none
  | p :: ps, c :: cs => if p = c then stripPrefixL ps cs else none

def hasPrefixB (p s : Str) : Bool := (stripPrefixL p s).isSome

/-- `hasSub p s` is true when `p` occurs as a contiguous substring of `s`. -/
def hasSub (p : Str) : Str → Bool
  | [] => hasPrefixB p []
  | c :: cs => hasPrefixB p (c :: cs) || hasSub p cs

/-- Matcher for a fixed-width character-class pattern: each position of the
input must satisfy the corresponding predicate.  Used for the timestamp
pattern `\d{4}/\d{2}/\d{2} \d{2}:\d{2}:\d{2}` shared by all five regexes. -/
def matchShape : List (Char → Bool) → Str → Option (Str × Str)
  | [], s => some ([], s)
  | _ :: _, [] => none
  | p :: ps, c :: cs =>
      if p c then (matchShape ps cs).map (fun x => (c :: x.1, x.2)) else none

/-- The timestamp shape `\d{4}/\d{2}/\d{2} \d{2}:\d{2}:\d{2}` (capture group 1
of every pattern in `LogWatcher::parse_line`). -/
def tsPat : List (Char → Bool) :=
  let d := fun c : Char => c.isDigit
  [d, d, d, d, (· = '/'), d, d, (· = '/'), d, d, (· = ' '),
   d, d, (· = ':'), d, d, (· = ':'), d, d]

/-- Unanchored leftmost regex search: try a match at every start position,
earliest first, exactly as `Regex::captures` does. -/
def searchFrom {α : Type} (f : Str → Option α) : Str → Option α
  | [] => f []
  | c :: cs =>
      match f (c :: cs) with
      | some r => some r
      | none => searchFrom f cs

/-- Greedy `.*LIT` followed by a continuation: skip characters (never a
newline, since `.` does not match `\n`) up to an occurrence of the literal
`lit`, preferring the rightmost occurrence whose continuation succeeds, which
is the backtracking preference of a greedy `.*`.  Returns the skipped
characters and the continuation's value. -/
def greedySplitAux {α : Type} (lit : Str) (p : Str → Option α) : Str → Option (Str × α)
  | [] =>
      match stripPrefixL lit [] with
      | some rest => (p rest).map (fun r => (([] : Str), r))
      | none => none
  | c :: cs =>
      match (if c = '\n' then none else
              (greedySplitAux lit p cs).map (fun x => (c :: x.1, x.2))) with
      | some res => some res
      | none =>
          match stripPrefixL lit (c :: cs) with
          | some rest => (p rest).map (fun r => (([] : Str), r))
          | none => none

/-- Greedy `(.+)LIT` followed by a continuation: like `greedySplitAux` but the
captured part must be nonempty. -/
def greedyPlusSplit {α : Type} (lit : Str) (p : Str → Option α) : Str → Option (Str × α)
  | [] => none
  | c :: cs =>
      if c = '\n' then none
      else (greedySplitAux lit p cs).map (fun x => (c :: x.1, x.2))

/-- Lazy `(.*?)LIT` followed by a continuation: prefer the leftmost occurrence
of `lit` whose continuation succeeds, the backtracking preference of a lazy
quantifier. -/
def lazySplitAux {α : Type} (lit : Str) (p : Str → Option α) : Str → Option (Str × α)
  | [] =>
      match stripPrefixL lit [] with
      | some rest => (p rest).map (fun r => (([] : Str), r))
      | none => none
  | c :: cs =>
      match (match stripPrefixL lit (c :: cs) with
             | some rest => (p rest).map (fun r => (([] : Str), r))
             | none => none) with
      | some res => some res
      | none =>
          if c = '\n' then none
          else (lazySplitAux lit p cs).map (fun x => (c :: x.1, x.2))

/-- Lazy `(.+?)LIT` followed by a continuation: nonempty lazy capture. -/
def lazyPlusSplit {α : Type} (lit : Str) (p : Str → Option α) : Str → Option (Str × α)
  | [] => none
  | c :: cs =>
      if c = '\n' then none
      else (lazySplitAux lit p cs).map (fun x => (c :: x.1, x.2))

/-- Maximal run of ASCII digits at the front of the input. -/
def takeDigits : Str → Str × Str
  | [] => ([], [])
  | c :: cs =>
      if c.isDigit then
        let x := takeDigits cs
        (c :: x.1, x.2)
      else ([], c :: cs)

/-- Greedy `(\d+)` at the end of a pattern: the maximal digit run, which must
be nonempty. -/
def digitsPlus (s : Str) : Option (Str × Str) :=
  match takeDigits s with
  | ([], _) => none
  | (d, r) => some (d, r)

/-- Events parsed from Client.txt (`LogEvent` in `log_watcher.rs`).  `level`
is the Rust `u32`, represented as a `Nat` (always `< 2 ^ 32` as produced by
the parser). -/
inductive LogEvent
  | zoneEnter (timestamp : Str) (zone_name : Str)
  | levelUp (timestamp : Str) (character_name : Str) (character_class : Str) (level : Nat)
  | death (timestamp : Str) (character_name : Str)
  | instanceDetails (timestamp : Str)
  | login (timestamp : Str)
deriving DecidableEq, Repr

def zoneMarker : Str := ("] You have entered ").toList

def lvlMarker : Str := ("] ").toList

def lvlLit1 : Str := (" (").toList

def lvlLit2 : Str := (") is now level ").toList

def deathLit : Str := (" has been slain.").toList

def instMarker : Str := ("] Got Instance Details").toList

def loginMarker : Str := ("] Connecting to instance server").toList

/-- `zoneMarker` without its leading `']'` (used to factor the marker as a
head character plus tail in proofs). -/
def zoneTail : Str := (" You have entered ").toList

/-- `lvlLit2` without its leading `')'`. -/
def lvl2Tail : Str := (" is now level ").toList

/-- Numeric value of an ASCII digit string. -/
def natOfDigits (l : Str) : Nat := l.foldl (fun a c => a * 10 + (c.toNat - 48)) 0

/-- `caps[4].parse::<u32>().unwrap_or(1)`: the digit string captured by
`(\d+)` parsed as a `u32`, defaulting to 1 when the value overflows 32 bits
(the only way a `\d+` capture can fail to parse). -/
def parseLevelU32 (ds : Str) : Nat :=
  let v := natOfDigits ds
  if v < 2 ^ 32 then v else 1

/-- The ZONE_ENTER regex
`(\d{4}/\d{2}/\d{2} \d{2}:\d{2}:\d{2}).*\] You have entered (.+)\.`
matched at one start position; yields (timestamp, zone_name). -/
def zoneCore (s : Str) : Option (Str × Str) :=
  match matchShape tsPat s with
  | none => none
  | some (ts, rest) =>
      match greedySplitAux zoneMarker
              (fun r => greedyPlusSplit (['.']) (fun rr => some rr) r) rest with
      | none => none
      | some (_, z, _) => some (ts, z)

/-- The LEVEL_UP regex
`(\d{4}/\d{2}/\d{2} \d{2}:\d{2}:\d{2}).*\] (.+?) \((.+?)\) is now level (\d+)`
matched at one start position; yields (timestamp, name, class, digit string). -/
def levelCore (s : Str) : Option (Str × Str × Str × Str) :=
  match matchShape tsPat s with
  | none => none
  | some (ts, rest) =>
      match greedySplitAux lvlMarker
              (fun r => lazyPlusSplit lvlLit1
                (fun r2 => lazyPlusSplit lvlLit2
                  (fun r3 => digitsPlus r3) r2) r) rest with
      | none => none
      | some (_, name, cls, ds, _) => some (ts, name, cls, ds)

/-- The DEATH regex
`(\d{4}/\d{2}/\d{2} \d{2}:\d{2}:\d{2}).*\] (.+?) has been slain\.`
matched at one start position. -/
def deathCore (s : Str) : Option (Str × Str) :=
  match matchShape tsPat s with
  | none => none
  | some (ts, rest) =>
      match greedySplitAux lvlMarker
              (fun r => lazyPlusSplit deathLit (fun r2 => some r2) r) rest with
      | none => none
      | some (_, name, _) => some (ts, name)

/-- The INSTANCE_DETAILS regex
`(\d{4}/\d{2}/\d{2} \d{2}:\d{2}:\d{2}).*\] Got Instance Details`. -/
def instCore (s : Str) : Option Str :=
  match matchShape tsPat s with
  | none => none
  | some (ts, rest) =>
      match greedySplitAux instMarker (fun r => some r) rest with
      | none => none
      | some _ => some ts

/-- The LOGIN regex
`(\d{4}/\d{2}/\d{2} \d{2}:\d{2}:\d{2}).*\] Connecting to instance server`. -/
def loginCore (s : Str) : Option Str :=
  match matchShape tsPat s with
  | none => none
  | some (ts, rest) =>
      match greedySplitAux loginMarker (fun r => some r) rest with
      | none => none
      | some _ => some ts

/-- `LogWatcher::parse_line`: the five patterns are tried in fixed priority
order, first match wins; a line matching none yields no event. -/
def parse_line (line : Str) : Option LogEvent :=
  match searchFrom zoneCore line with
  | some (ts, z) => some (.zoneEnter ts z)
  | none =>
  match searchFrom levelCore line with
  | some (ts, name, cls, ds) => some (.levelUp ts name cls (parseLevelU32 ds))
  | none =>
  match searchFrom deathCore line with
  | some (ts, name) => some (.death ts name)
  | none =>
  match searchFrom instCore line with
  | some ts => some (.instanceDetails ts)
  | none =>
  match searchFrom loginCore line with
  | some ts => some (.login ts)
  | none => none

example :
    parse_line ("2024/01/15 12:34:56 12345678 abc [INFO Client 1234] You have entered The Coast.").toList
      = some (.zoneEnter ("2024/01/15 12:34:56").toList ("The Coast").toList) := by
  decide

example :
    parse_line ("2024/01/15 12:34:56 12345678 abc [INFO Client 1234] TestChar (Witch) is now level 10").toList
      = some (.levelUp ("2024/01/15 12:34:56").toList ("TestChar").toList ("Witch").toList 10) := by
  decide

example :
    parse_line ("2024/01/15 12:34:56 12345678 abc [INFO Client 1234] TestChar has been slain.").toList
      = some (.death ("2024/01/15 12:34:56").toList ("TestChar").toList) := by
  decide

/-! ## Log tailer read pass (`LogWatcher::read_new_lines`, `watch_loop`)

The file is a list of characters (bytes), the shared cursor an explicit `Nat`.
`BufRead::read_line` reads up to and including the next `'\n'`, or up to
end-of-file when no newline follows; the loop ends when a read returns zero
bytes, after which the cursor cell is overwritten with the stream position.
I/O failures are injected explicitly: `content? = none` models `File::open`
failing, `failAtRead = some k` models the `k`-th `read_line` call (or the
seek, for `k = 0`) returning an error.  Every such error propagates through
`?` before the cursor cell is written. -/

/-- Split the stream into the successive results of `read_line`: each line
includes its terminating newline; a final unterminated fragment is returned
as a line as well (this is what `BufRead::read_line` does at end-of-file). -/
def readLinesAux (acc : Str) : Str → List Str
  | [] => if acc = [] then [] else [acc.reverse]
  | c :: cs =>
      if c = '\n' then (acc.reverse ++ ['\n']) :: readLinesAux [] cs
      else readLinesAux (c :: acc) cs

def readLines (s : Str) : List Str := readLinesAux [] s

/-- `LogWatcher::read_new_lines`: returns the `Result` and the value of the
shared cursor cell after the call (the cell is written only on the success
path, after the whole read loop). -/
def read_new_lines (content? : Option Str) (failAtRead : Option Nat) (pos : Nat) :
    Except Unit (List LogEvent) × Nat :=
  match content? with
  | none => (.error (), pos)
  | some content =>
      let ls := readLines (content.drop pos)
      match failAtRead with
      | some k =>
          if k ≤ ls.length then (.error (), pos)
          else (.ok (ls.filterMap parse_line), pos + (content.drop pos).length)
      | none => (.ok (ls.filterMap parse_line), pos + (content.drop pos).length)

/-- One iteration of `LogWatcher::watch_loop` after a change notification:
events are emitted only when the read pass returns `Ok` (`if let Ok(events)`);
an `Err` pass emits nothing. Returns (emitted events, cursor after). -/
def watch_pass (content? : Option Str) (failAtRead : Option Nat) (pos : Nat) :
    List LogEvent × Nat :=
  match read_new_lines content? failAtRead pos with
  | (.ok evs, p) => (evs, p)
  | (.error _, p) => ([], p)

/-! ## `LogWatcher::start` -/

/-- The filesystem outcomes `LogWatcher::start` branches on: the file's
metadata (`some len`, or `none` when the file does not exist), whether
`RecommendedWatcher::new` succeeds, whether the path has a parent directory,
and whether watching the parent succeeds. -/
structure StartEnv where
  fileLen : Option Nat
  watcherNewOk : Bool
  hasParent : Bool
  watchParentOk : Bool
deriving DecidableEq, Repr

/-- `LogWatcher::start`: the cursor is set to the file length when metadata
succeeds (`if let Ok(metadata)` — a failure is silently ignored); watcher
construction and watching the parent propagate errors with `?`; on success the
loop thread is spawned (the returned `Bool`).  Returns (result, cursor). -/
def LogWatcher.start (env : StartEnv) (pos : Nat) : Except Unit Bool × Nat :=
  let pos' := match env.fileLen with
    | some n => n
    | none => pos
  if env.watcherNewOk = false then (.error (), pos')
  else if env.hasParent && !env.watchParentOk then (.error (), pos')
  else (.ok true, pos')

/-! ## Token-bucket rate limiter (`RateLimiter` in `api_client.rs`)

`f64` is modelled as `ℚ`; `last_update` is eliminated by passing the elapsed
time (always nonnegative for `Instant`s) to each call. -/

structure RateLimiter where
  tokens : ℚ
  max_tokens : ℚ
  refill_rate : ℚ
deriving DecidableEq, Repr

def RateLimiter.new (max_tokens refill_rate : ℚ) : RateLimiter :=
  { tokens := max_tokens, max_tokens := max_tokens, refill_rate := refill_rate }

/-- `RateLimiter::refill`: add `elapsed * refill_rate` tokens, capped at
`max_tokens`. -/
def RateLimiter.refill (l : RateLimiter) (elapsed : ℚ) : RateLimiter :=
  { l with tokens := min (l.tokens + elapsed * l.refill_rate) l.max_tokens }

/-- `RateLimiter::try_acquire`: refill first, then take one token if at least
one is available, otherwise fail without further change. -/
def RateLimiter.try_acquire (l : RateLimiter) (elapsed : ℚ) : Bool × RateLimiter :=
  let l' := l.refill elapsed
  if 1 ≤ l'.tokens then (true, { l' with tokens := l'.tokens - 1 })
  else (false, l')

/-- A sequence of `try_acquire` calls with the given elapsed times; returns
the call results in order and the final limiter state. -/
def runCalls : RateLimiter → List ℚ → List Bool × RateLimiter
  | l, [] => ([], l)
  | l, e :: es =>
      let r := l.try_acquire e
      let rest := runCalls r.2 es
      (r.1 :: rest.1, rest.2)

/-! ## TTL response cache and fetch protocol (`PoeApiClient`) -/

/-- `CacheEntry<String>`: the raw response body and its expiry instant. -/
structure CacheEntry where
  data : String
  expires_at : Nat
deriving DecidableEq, Repr

/-- The `HashMap<String, CacheEntry<String>>`, as an association list. -/
abbrev Cache := List (String × CacheEntry)

def lookupC : Cache → String → Option CacheEntry
  | [], _ => none
  | (k, v) :: rest, u => if k = u then some v else lookupC rest u

/-- `HashMap::insert`: unconditionally overwrite any entry with the key. -/
def insertC : Cache → String → CacheEntry → Cache
  | [], u, e => [(u, e)]
  | (k, v) :: rest, u, e =>
      if k = u then (u, e) :: rest else (k, v) :: insertC rest u e

/-- `PoeApiClient::get_cached`: return the stored payload only when
`expires_at > now`; an expired entry falls through to `None` exactly like an
absent one (nothing is removed — the lookup takes the lock read-only). -/
def get_cached (cache : Cache) (url : String) (now : Nat) : Option String :=
  match lookupC cache url with
  | some entry => if now < entry.expires_at then some entry.data else none
  | none => none

/-- `PoeApiClient::cache_response`: insert with expiry `now + ttl`. -/
def cache_response (cache : Cache) (url : String) (data : String) (now ttl : Nat) : Cache :=
  insertC cache url { data := data, expires_at := now + ttl }

/-- The typed error outcomes of a fetch operation: HTTP 403 ("Profile is
private..."), HTTP 429 ("Rate limited..."), a transport failure of the
request itself (`send()`/`text()` erroring), or a `serde_json` failure. -/
inductive FetchError
  | privateProfile
  | rateLimited
  | transport
  | deser
deriving DecidableEq, Repr

/-- An HTTP response as observed by the client: status code and body text. -/
structure HttpResponse where
  status : Nat
  body : String
deriving DecidableEq, Repr

/-- Result of one fetch operation: the returned value, the cache afterwards,
and whether the rate limiter gate and the network were used. -/
structure FetchOutcome (α : Type) where
  result : Except FetchError α
  cache' : Cache
  usedLimiter : Bool
  usedNetwork : Bool

/-- The shared protocol of `get_characters`, `get_items` and
`get_passive_skills` (their bodies are identical up to URL, TTL and response
type): check the cache and deserialize on a hit; on a miss wait on the rate
limiter and send the request (`resp = none` models the request or body read
failing); `403` and `429` map to their domain errors; any other response has
its body cached with the operation's TTL and is then deserialized.
`decode` abstracts `serde_json::from_str`. -/
def fetch_op {α : Type} (decode : String → Option α) (ttl : Nat) (url : String)
    (cache : Cache) (now : Nat) (resp : Option HttpResponse) : FetchOutcome α :=
  match get_cached cache url now with
  | some cached =>
      { result := match decode cached with
          | some v => .ok v
          | none => .error .deser,
        cache' := cache, usedLimiter := false, usedNetwork := false }
  | none =>
      match resp with
      | none =>
          { result := .error .transport, cache' := cache,
            usedLimiter := true, usedNetwork := true }
      | some r =>
          if r.status = 403 then
            { result := .error .privateProfile, cache' := cache,
              usedLimiter := true, usedNetwork := true }
          else if r.status = 429 then
            { result := .error .rateLimited, cache' := cache,
              usedLimiter := true, usedNetwork := true }
          else
            { result := match decode r.body with
                | some v => .ok v
                | none => .error .deser,
              cache' := cache_response cache url r.body now ttl,
              usedLimiter := true, usedNetwork := true }

def POE_API_BASE : String := "https://www.pathofexile.com"

def charsUrl (account : String) : String :=
  POE_API_BASE ++ "/character-window/get-characters?accountName=" ++ account

def itemsUrl (account character : String) : String :=
  POE_API_BASE ++ "/character-window/get-items?accountName=" ++ account
    ++ "&character=" ++ character

def passivesUrl (account character : String) : String :=
  POE_API_BASE ++ "/character-window/get-passive-skills?accountName=" ++ account
    ++ "&character=" ++ character

/-- `PoeApiClient::get_characters` (TTL 60 seconds). -/
def get_characters {α : Type} (decode : String → Option α) (account : String)
    (cache : Cache) (now : Nat) (resp : Option HttpResponse) : FetchOutcome α :=
  fetch_op decode 60 (charsUrl account) cache now resp

/-- `PoeApiClient::get_items` (TTL 30 seconds; the debug `println!` has no
semantic effect and is not modelled). -/
def get_items {α : Type} (decode : String → Option α) (account character : String)
    (cache : Cache) (now : Nat) (resp : Option HttpResponse) : FetchOutcome α :=
  fetch_op decode 30 (itemsUrl account character) cache now resp

/-- `PoeApiClient::get_passive_skills` (TTL 30 seconds). -/
def get_passive_skills {α : Type} (decode : String → Option α) (account character : String)
    (cache : Cache) (now : Nat) (resp : Option HttpResponse) : FetchOutcome α :=
  fetch_op decode 30 (passivesUrl account character) cache now resp

/-! ## Helper lemmas -/

theorem stripPrefixL_append (p r : Str) : stripPrefixL p (p ++ r) = some r := by
  induction p with
  | nil => rfl
  | cons c cs ih => simp [stripPrefixL, ih]

theorem matchShape_append_of_eq :
    ∀ (ps : List (Char → Bool)) (s t r : Str), matchShape ps s = some (t, r) → s = t ++ r := by
  intro ps
  induction ps with
  | nil =>
    intro s t r h
    simp only [matchShape, Option.some.injEq, Prod.mk.injEq] at h
    simp [← h.1, ← h.2]
  | cons p ps ih =>
    intro s t r h
    cases s with
    | nil => simp [matchShape] at h
    | cons c cs =>
      by_cases hp : p c
      · rw [matchShape, if_pos hp] at h
        cases hm : matchShape ps cs with
        | none => rw [hm] at h; simp at h
        | some x =>
          obtain ⟨a, b⟩ := x
          rw [hm] at h
          simp only [Option.map_some'] at h
          have hfst : c :: a = t := congrArg Prod.fst (Option.some.inj h)
          have hsnd : b = r := congrArg Prod.snd (Option.some.inj h)
          rw [← hfst, ← hsnd]
          simp [ih cs a b hm]
      · rw [matchShape, if_neg hp] at h
        simp at h

theorem matchShape_extend :
    ∀ (ps : List (Char → Bool)) (t b : Str),
      matchShape ps t = some (t, []) → matchShape ps (t ++ b) = some (t, b) := by
  intro ps
  induction ps with
  | nil =>
    intro t b h
    simp only [matchShape, Option.some.injEq, Prod.mk.injEq] at h
    rw [← h.1]
    rfl
  | cons p ps ih =>
    intro t b h
    cases t with
    | nil => simp [matchShape] at h
    | cons c cs =>
      by_cases hp : p c
      · rw [matchShape, if_pos hp] at h
        cases hm : matchShape ps cs with
        | none => rw [hm] at h; simp at h
        | some x =>
          obtain ⟨a, b'⟩ := x
          rw [hm] at h
          simp only [Option.map_some', Option.some.injEq, Prod.mk.injEq] at h
          have ha : a = cs := by
            have h1 := h.1
            injection h1
          have hb : b' = [] := h.2
          subst ha hb
          have hext := ih _ b hm
          rw [List.cons_append, matchShape, if_pos hp, hext]
          rfl
      · rw [matchShape, if_neg hp] at h
        simp at h

theorem hasSub_false_of_append (p t r : Str) (h : hasSub p (t ++ r) = false) :
    hasSub p r = false := by
  induction t with
  | nil => exact h
  | cons c t ih =>
    simp only [List.cons_append, hasSub, Bool.or_eq_false_iff] at h
    exact ih h.2

theorem greedySplitAux_none {α : Type} (lit : Str) (k : Str → Option α) (s : Str)
    (h : hasSub lit s = false) : greedySplitAux lit k s = none := by
  induction s with
  | nil =>
    simp only [hasSub, hasPrefixB] at h
    cases hs : stripPrefixL lit [] with
    | none => simp [greedySplitAux, hs]
    | some r => rw [hs] at h; simp at h
  | cons c cs ih =>
    simp only [hasSub, hasPrefixB, Bool.or_eq_false_iff] at h
    obtain ⟨h1, h2⟩ := h
    cases hs : stripPrefixL lit (c :: cs) with
    | none => simp [greedySplitAux, hs, ih h2]
    | some r => rw [hs] at h1; simp at h1

theorem hasSub_false_of_notMem (l0 : Char) (lit' : Str) (s : Str) (h : l0 ∉ s) :
    hasSub (l0 :: lit') s = false := by
  induction s with
  | nil => rfl
  | cons c cs ih =>
    have hc : l0 ≠ c := by
      intro he
      exact h (by simp [he])
    have hcs : l0 ∉ cs := fun hx => h (List.mem_cons_of_mem _ hx)
    simp [hasSub, hasPrefixB, stripPrefixL, hc, ih hcs]

theorem greedySplitAux_through {α : Type} (M' : Str) (k : Str → Option α) (v : α)
    (mid R : Str) (hmid : '\n' ∉ mid) (hM : ']' ∉ M') (hR : ']' ∉ R)
    (hk : k R = some v) :
    greedySplitAux (']' :: M') k (mid ++ ']' :: (M' ++ R)) = some (mid, v) := by
  induction mid with
  | nil =>
    have hmem : ']' ∉ M' ++ R := by
      simp only [List.mem_append]
      tauto
    have hnone : greedySplitAux (']' :: M') k (M' ++ R) = none :=
      greedySplitAux_none _ _ _ (hasSub_false_of_notMem _ _ _ hmem)
    have hstrip : stripPrefixL (']' :: M') (']' :: (M' ++ R)) = some R := by
      have := stripPrefixL_append (']' :: M') R
      simpa using this
    simp [greedySplitAux, hnone, hstrip, hk]
  | cons c mid ih =>
    have hc : c ≠ '\n' := by
      intro he
      exact hmid (by simp [he])
    have hmid' : '\n' ∉ mid := fun hx => hmid (List.mem_cons_of_mem _ hx)
    simp [greedySplitAux, hc, ih hmid']

theorem greedySplitAux_dot {α : Type} (p : Str → Option α) (v : α) (z : Str)
    (hz : '\n' ∉ z) (hp : p [] = some v) :
    greedySplitAux ['.'] p (z ++ ['.']) = some (z, v) := by
  induction z with
  | nil => simp [greedySplitAux, stripPrefixL, hp]
  | cons c z ih =>
    have hc : c ≠ '\n' := by
      intro he
      exact hz (by simp [he])
    have hz' : '\n' ∉ z := fun hx => hz (List.mem_cons_of_mem _ hx)
    simp [greedySplitAux, hc, ih hz']

theorem lazySplitAux_space_paren {α : Type} (k : Str → Option α) (v : α) (b R : Str)
    (hb1 : '(' ∉ b) (hb2 : '\n' ∉ b) (hk : k R = some v) :
    lazySplitAux [' ', '('] k (b ++ ' ' :: '(' :: R) = some (b, v) := by
  induction b with
  | nil => simp [lazySplitAux, stripPrefixL, hk]
  | cons c b ih =>
    have hc1 : c ≠ '\n' := by
      intro he
      exact hb2 (by simp [he])
    have hb1' : '(' ∉ b := fun hx => hb1 (List.mem_cons_of_mem _ hx)
    have hb2' : '\n' ∉ b := fun hx => hb2 (List.mem_cons_of_mem _ hx)
    have hhead : ∀ s : Str, (b ++ ' ' :: '(' :: R) = s →
        stripPrefixL [' ', '('] (c :: s) = none := by
      intro s hs
      by_cases hsp : (' ' : Char) = c
      · cases b with
        | nil =>
          rw [← hs]
          simp [stripPrefixL, hsp]
        | cons b0 b' =>
          have hb0 : b0 ≠ '(' := by
            intro he
            exact hb1 (by simp [he])
          rw [← hs]
          simp [stripPrefixL, hsp, Ne.symm hb0]
      · simp [stripPrefixL, hsp]
    simp [lazySplitAux, hhead _ rfl, hc1, ih hb1' hb2']

theorem lazySplitAux_close {α : Type} (L' : Str) (k : Str → Option α) (v : α) (b R : Str)
    (hb1 : ')' ∉ b) (hb2 : '\n' ∉ b) (hk : k R = some v) :
    lazySplitAux (')' :: L') k (b ++ ')' :: (L' ++ R)) = some (b, v) := by
  induction b with
  | nil =>
    have hstrip : stripPrefixL (')' :: L') (')' :: (L' ++ R)) = some R := by
      have := stripPrefixL_append (')' :: L') R
      simpa using this
    simp [lazySplitAux, hstrip, hk]
  | cons c b ih =>
    have hc1 : c ≠ '\n' := by
      intro he
      exact hb2 (by simp [he])
    have hcp : (')' : Char) ≠ c := by
      intro he
      exact hb1 (by simp [← he])
    have hb1' : ')' ∉ b := fun hx => hb1 (List.mem_cons_of_mem _ hx)
    have hb2' : '\n' ∉ b := fun hx => hb2 (List.mem_cons_of_mem _ hx)
    simp [lazySplitAux, stripPrefixL, hcp, hc1, ih hb1' hb2']

theorem takeDigits_all (ds : Str) (h : ∀ c ∈ ds, c.isDigit = true) :
    takeDigits ds = (ds, []) := by
  induction ds with
  | nil => rfl
  | cons c cs ih =>
    have hc : c.isDigit = true := h c (by simp)
    have hcs : ∀ c ∈ cs, c.isDigit = true := fun x hx => h x (List.mem_cons_of_mem _ hx)
    simp [takeDigits, hc, ih hcs]

theorem digitsPlus_all (ds : Str) (h0 : ds ≠ []) (h : ∀ c ∈ ds, c.isDigit = true) :
    digitsPlus ds = some (ds, []) := by
  cases ds with
  | nil => exact absurd rfl h0
  | cons c cs =>
    rw [digitsPlus, takeDigits_all _ h]

theorem searchFrom_of_head {α : Type} (f : Str → Option α) (s : Str) (r : α)
    (h : f s = some r) : searchFrom f s = some r := by
  cases s <;> simp [searchFrom, h]

theorem zoneCore_none (s : Str) (h : hasSub zoneMarker s = false) : zoneCore s = none := by
  rw [zoneCore]
  cases hm : matchShape tsPat s with
  | none => rfl
  | some tr =>
    obtain ⟨ts, rest⟩ := tr
    have hs : s = ts ++ rest := matchShape_append_of_eq _ _ _ _ hm
    have h2 : hasSub zoneMarker rest = false := by
      apply hasSub_false_of_append zoneMarker ts rest
      rw [← hs]
      exact h
    simp [greedySplitAux_none _ _ _ h2]

theorem searchFrom_zoneCore_none (s : Str) (h : hasSub zoneMarker s = false) :
    searchFrom zoneCore s = none := by
  induction s with
  | nil => simp [searchFrom, zoneCore_none _ h]
  | cons c cs ih =>
    have h' : hasSub zoneMarker cs = false := by
      simp only [hasSub, Bool.or_eq_false_iff] at h
      exact h.2
    simp [searchFrom, zoneCore_none _ h, ih h']

theorem lookupC_insertC_self (cache : Cache) (u : String) (e : CacheEntry) :
    lookupC (insertC cache u e) u = some e := by
  induction cache with
  | nil => simp [insertC, lookupC]
  | cons kv rest ih =>
    obtain ⟨k, v⟩ := kv
    by_cases hk : k = u
    · simp [insertC, hk, lookupC]
    · simp [insertC, hk, lookupC, ih]

theorem lookupC_insertC_other (cache : Cache) (u u' : String) (e : CacheEntry)
    (h : u' ≠ u) : lookupC (insertC cache u e) u' = lookupC cache u' := by
  induction cache with
  | nil => simp [insertC, lookupC, Ne.symm h]
  | cons kv rest ih =>
    obtain ⟨k, v⟩ := kv
    by_cases hk : k = u
    · subst hk
      simp [insertC, lookupC, Ne.symm h]
    · simp [insertC, hk, lookupC, ih]

theorem zoneMarker_eq : zoneMarker = ']' :: zoneTail := by decide

theorem lvlMarker_eq : lvlMarker = ']' :: [' '] := by decide

theorem lvlLit2_eq : lvlLit2 = ')' :: lvl2Tail := by decide

theorem zoneCore_build (ts mid z : Str)
    (hts : matchShape tsPat ts = some (ts, []))
    (hmid : '\n' ∉ mid) (hz0 : z ≠ []) (hz1 : '\n' ∉ z) (hz2 : ']' ∉ z) :
    zoneCore (ts ++ (mid ++ (']' :: (zoneTail ++ (z ++ ['.']))))) = some (ts, z) := by
  have hk : greedyPlusSplit ['.'] (fun rr => some rr) (z ++ ['.'])
      = some (z, ([] : Str)) := by
    cases z with
    | nil => exact absurd rfl hz0
    | cons z0 z' =>
      have hz0' : z0 ≠ '\n' := by
        intro he
        exact hz1 (by simp [he])
      have hz' : '\n' ∉ z' := fun hx => hz1 (List.mem_cons_of_mem _ hx)
      simp [greedyPlusSplit, hz0',
        greedySplitAux_dot (fun rr => some rr) ([] : Str) z' hz' rfl]
  have hMz : ']' ∉ zoneTail := by decide
  have hR : ']' ∉ z ++ ['.'] := by
    simp only [List.mem_append, List.mem_singleton]
    rintro (hx | hx)
    · exact hz2 hx
    · exact absurd hx (by decide)
  have hthrough := greedySplitAux_through zoneTail
    (fun r => greedyPlusSplit ['.'] (fun rr => some rr) r) (z, ([] : Str))
    mid (z ++ ['.']) hmid hMz hR hk
  have hshape := matchShape_extend tsPat ts (mid ++ (']' :: (zoneTail ++ (z ++ ['.'])))) hts
  simp only [List.append_assoc] at hthrough
  simp [zoneCore, hshape, zoneMarker_eq, hthrough]

theorem lvlLit1_eq : lvlLit1 = [' ', '('] := by decide

theorem lazyPlusSplit_cons {α : Type} (lit : Str) (p : Str → Option α) (c : Char)
    (cs : Str) (hc : c ≠ '\n') :
    lazyPlusSplit lit p (c :: cs) = (lazySplitAux lit p cs).map (fun x => (c :: x.1, x.2)) := by
  simp [lazyPlusSplit, hc]

theorem levelCore_build (ts mid name cls ds : Str)
    (hts : matchShape tsPat ts = some (ts, []))
    (hmid : '\n' ∉ mid)
    (hn0 : name ≠ []) (hn1 : '\n' ∉ name) (hn2 : '(' ∉ name) (hn3 : ']' ∉ name)
    (hc0 : cls ≠ []) (hc1 : '\n' ∉ cls) (hc2 : ')' ∉ cls) (hc3 : ']' ∉ cls)
    (hd0 : ds ≠ []) (hdig : ∀ c ∈ ds, c.isDigit = true) :
    levelCore (ts ++ (mid ++ (']' :: ' ' ::
        (name ++ (' ' :: '(' :: (cls ++ (')' :: (lvl2Tail ++ ds))))))))
      = some (ts, name, cls, ds) := by
  have hk3 : digitsPlus ds = some (ds, ([] : Str)) := digitsPlus_all ds hd0 hdig
  have hk2 : lazyPlusSplit lvlLit2 (fun r3 => digitsPlus r3)
      (cls ++ (')' :: (lvl2Tail ++ ds))) = some (cls, (ds, ([] : Str))) := by
    cases cls with
    | nil => exact absurd rfl hc0
    | cons c0 cls' =>
      have hc0' : c0 ≠ '\n' := by
        intro he
        exact hc1 (by simp [he])
      have hc1' : '\n' ∉ cls' := fun hx => hc1 (List.mem_cons_of_mem _ hx)
      have hc2' : ')' ∉ cls' := fun hx => hc2 (List.mem_cons_of_mem _ hx)
      have hclose := lazySplitAux_close lvl2Tail (fun r3 => digitsPlus r3)
        ((ds, ([] : Str))) cls' ds hc2' hc1' hk3
      simp [lazyPlusSplit, lvlLit2_eq, hc0', hclose]
  have hk1 : lazyPlusSplit lvlLit1
      (fun r2 => lazyPlusSplit lvlLit2 (fun r3 => digitsPlus r3) r2)
      (name ++ (' ' :: '(' :: (cls ++ (')' :: (lvl2Tail ++ ds)))))
      = some (name, (cls, (ds, ([] : Str)))) := by
    cases name with
    | nil => exact absurd rfl hn0
    | cons n0 name' =>
      have hn0' : n0 ≠ '\n' := by
        intro he
        exact hn1 (by simp [he])
      have hn1' : '\n' ∉ name' := fun hx => hn1 (List.mem_cons_of_mem _ hx)
      have hn2' : '(' ∉ name' := fun hx => hn2 (List.mem_cons_of_mem _ hx)
      have hsp := lazySplitAux_space_paren
        (fun r2 => lazyPlusSplit lvlLit2 (fun r3 => digitsPlus r3) r2)
        ((cls, (ds, ([] : Str)))) name' (cls ++ (')' :: (lvl2Tail ++ ds)))
        hn2' hn1' hk2
      have hcons : (n0 :: name') ++ (' ' :: '(' :: (cls ++ (')' :: (lvl2Tail ++ ds))))
          = n0 :: (name' ++ ' ' :: '(' :: (cls ++ ')' :: (lvl2Tail ++ ds))) := by simp
      rw [hcons, lazyPlusSplit_cons _ _ _ _ hn0', lvlLit1_eq, hsp]
      rfl
  have hR : ']' ∉ name ++ (' ' :: '(' :: (cls ++ (')' :: (lvl2Tail ++ ds)))) := by
    intro hmem
    simp only [List.mem_append, List.mem_cons] at hmem
    rcases hmem with h | h | h | h | h | h | h
    · exact hn3 h
    · exact absurd h (by decide)
    · exact absurd h (by decide)
    · exact hc3 h
    · exact absurd h (by decide)
    · exact absurd h (by decide)
    · have := hdig ']' h
      simp at this
  have hthrough := greedySplitAux_through [' ']
    (fun r => lazyPlusSplit lvlLit1
      (fun r2 => lazyPlusSplit lvlLit2 (fun r3 => digitsPlus r3) r2) r)
    ((name, (cls, (ds, ([] : Str))))) mid
    (name ++ (' ' :: '(' :: (cls ++ (')' :: (lvl2Tail ++ ds)))))
    hmid (by decide) hR hk1
  have hshape := matchShape_extend tsPat ts
    (mid ++ (']' :: ' ' ::
      (name ++ (' ' :: '(' :: (cls ++ (')' :: (lvl2Tail ++ ds))))))) hts
  simp only [List.append_assoc, List.singleton_append, List.cons_append,
    List.nil_append] at hthrough
  simp [levelCore, hshape, lvlMarker_eq, hthrough]

/-! ## Claim theorems -/

/-- Claim C8 (confirmed): for every line matching the zone-enter pattern — a
valid timestamp prefix, arbitrary non-newline engine fields, the marker
"] You have entered ", then a nonempty zone name (no newline and no `']'`,
which would shift the greedy match) closed by the final period of the line —
`parse_line` returns `ZoneEnter` whose `zone_name` is exactly the text
between the marker and that final period, period excluded. -/
theorem C8_zone_enter_parse (ts mid z : Str)
    (hts : matchShape tsPat ts = some (ts, []))
    (hmid : '\n' ∉ mid) (hz0 : z ≠ []) (hz1 : '\n' ∉ z) (hz2 : ']' ∉ z) :
    parse_line (ts ++ mid ++ zoneMarker ++ z ++ ['.'])
      = some (.zoneEnter ts z) := by
  have hcore := zoneCore_build ts mid z hts hmid hz0 hz1 hz2
  have hline : ts ++ mid ++ zoneMarker ++ z ++ ['.']
      = ts ++ (mid ++ (']' :: (zoneTail ++ (z ++ ['.'])))) := by
    rw [zoneMarker_eq]
    simp
  rw [hline]
  have hsearch := searchFrom_of_head zoneCore _ _ hcore
  simp [parse_line, hsearch]

theorem C8_zone_enter_parse_witness :
    parse_line (("2024/01/15 12:34:56").toList
        ++ (" 12345678 abc [INFO Client 1234").toList
        ++ zoneMarker ++ ("The Coast").toList ++ ['.'])
      = some (.zoneEnter ("2024/01/15 12:34:56").toList ("The Coast").toList) :=
  C8_zone_enter_parse _ _ _ (by decide) (by decide) (by decide) (by decide) (by decide)

/-- Claim C2 counterexample: a line with all level-up fields present but a
non-numeric level field does not match the LEVEL_UP pattern at all (the
regex requires `(\d+)`), so `parse_line` returns no event — not
`LevelUp` with level defaulted to 1 as the claim states. -/
theorem C2_counterexample_nonnumeric_level :
    parse_line (("2024/01/15 12:34:56 12345678 abc [INFO Client 1234] TestChar (Witch) is now level abc").toList)
      = none := by
  decide

/-- Claim C2 amended: a level-up line only matches when its level field is a
nonempty digit string; the `unwrap_or(1)` default applies exactly when that
digit string fails to parse as a `u32` (overflow), in which case the level is
1 (`parseLevelU32`); a non-numeric level field yields no event
(`C2_counterexample_nonnumeric_level`).  The name must not contain `'('`
and the class must not contain `')'` (otherwise the lazy captures shift),
neither may contain `']'` or a newline, and the line must not contain the
zone-enter marker (which would be matched with higher priority). -/
theorem C2_level_up_amended (ts mid name cls ds : Str)
    (hts : matchShape tsPat ts = some (ts, []))
    (hmid : '\n' ∉ mid)
    (hn0 : name ≠ []) (hn1 : '\n' ∉ name) (hn2 : '(' ∉ name) (hn3 : ']' ∉ name)
    (hc0 : cls ≠ []) (hc1 : '\n' ∉ cls) (hc2 : ')' ∉ cls) (hc3 : ']' ∉ cls)
    (hd0 : ds ≠ []) (hdig : ∀ c ∈ ds, c.isDigit = true)
    (hz : hasSub zoneMarker
      (ts ++ mid ++ lvlMarker ++ name ++ lvlLit1 ++ cls ++ lvlLit2 ++ ds) = false) :
    parse_line (ts ++ mid ++ lvlMarker ++ name ++ lvlLit1 ++ cls ++ lvlLit2 ++ ds)
      = some (.levelUp ts name cls (parseLevelU32 ds)) := by
  have hznone := searchFrom_zoneCore_none _ hz
  have hcore := levelCore_build ts mid name cls ds hts hmid hn0 hn1 hn2 hn3
    hc0 hc1 hc2 hc3 hd0 hdig
  have hline : ts ++ mid ++ lvlMarker ++ name ++ lvlLit1 ++ cls ++ lvlLit2 ++ ds
      = ts ++ (mid ++ (']' :: ' ' ::
          (name ++ (' ' :: '(' :: (cls ++ (')' :: (lvl2Tail ++ ds))))))) := by
    rw [lvlMarker_eq, lvlLit1_eq, lvlLit2_eq]
    simp
  rw [hline] at hznone ⊢
  have hsearch := searchFrom_of_head levelCore _ _ hcore
  simp [parse_line, hznone, hsearch]

theorem C2_level_up_amended_witness :
    parse_line (("2024/01/15 12:34:56").toList
        ++ (" 12345678 abc [INFO Client 1234").toList
        ++ lvlMarker ++ ("TestChar").toList ++ lvlLit1 ++ ("Witch").toList ++ lvlLit2
        ++ ("99999999999").toList)
      = some (.levelUp ("2024/01/15 12:34:56").toList ("TestChar").toList
          ("Witch").toList (parseLevelU32 (("99999999999").toList))) :=
  C2_level_up_amended _ _ _ _ _ (by decide) (by decide) (by decide) (by decide)
    (by decide) (by decide) (by decide) (by decide) (by decide) (by decide)
    (by decide) (by decide) (by decide)

example : parseLevelU32 (("99999999999").toList) = 1 := by decide

example : parseLevelU32 (("100").toList) = 100 := by decide

/-- Claim C7 (confirmed): a read pass when no new bytes have been appended
(the cursor already equals the file length) yields an empty event list and
leaves the cursor unchanged; one watch-loop iteration likewise emits nothing
and keeps the cursor, whether or not the pass fails. -/
theorem C7_read_pass_idempotent (content : Str) (failAtRead : Option Nat) (pos : Nat)
    (h : pos = content.length) :
    read_new_lines (some content) none pos = (.ok [], pos)
    ∧ watch_pass (some content) failAtRead pos = ([], pos) := by
  subst h
  refine ⟨?_, ?_⟩
  · simp [read_new_lines, readLines, List.drop_length, readLinesAux]
  · cases failAtRead with
    | none =>
      simp [watch_pass, read_new_lines, readLines, List.drop_length, readLinesAux]
    | some k =>
      by_cases hk : k = 0 <;>
        simp [watch_pass, read_new_lines, readLines, List.drop_length, readLinesAux, hk]

theorem C7_read_pass_idempotent_witness :
    read_new_lines (some (("abc").toList)) none 3 = (.ok [], 3)
    ∧ watch_pass (some (("abc").toList)) (some 0) 3 = ([], 3) :=
  C7_read_pass_idempotent _ (some 0) 3 (by decide)

/-- Claim C10 (confirmed): a read pass that returns an error — `File::open`
failing, or a seek or `read_line` failing mid-pass — leaves the cursor
unchanged (it is written only after the whole pass has completed) and the
watch loop emits no events from that pass. -/
theorem C10_failed_pass_atomic (content? : Option Str) (failAtRead : Option Nat) (pos : Nat)
    (h : (read_new_lines content? failAtRead pos).1 = .error ()) :
    (read_new_lines content? failAtRead pos).2 = pos
    ∧ watch_pass content? failAtRead pos = ([], pos) := by
  cases content? with
  | none => simp [read_new_lines, watch_pass]
  | some content =>
    cases failAtRead with
    | none => simp [read_new_lines] at h
    | some k =>
      by_cases hk : k ≤ (readLines (content.drop pos)).length
      · refine ⟨?_, ?_⟩
        · simp [read_new_lines, hk]
        · simp [watch_pass, read_new_lines, hk]
      · simp [read_new_lines, hk] at h

theorem C10_failed_pass_atomic_witness :
    (read_new_lines none none 7).2 = 7 ∧ watch_pass none none 7 = ([], 7) :=
  C10_failed_pass_atomic none none 7 rfl

/-- Claim C1 (code bug): the read pass does NOT leave an unterminated
trailing line unconsumed.  `read_line` returns the final fragment even
without a newline, the fragment is parsed, and the cursor advances to
end-of-file.  First conjunct: an unterminated zone-enter line (79 bytes, no
trailing newline) is parsed and consumed in the pass that first sees it.
Remaining conjuncts: the same line split across two writes (75 bytes, then
"ast.\n") produces no event in either pass — the event is lost, whereas
under the claimed behavior the fragment would be left unconsumed and parsed
whole on the second pass. -/
theorem C1_partial_trailing_line_consumed :
    read_new_lines
        (some (("2024/01/15 12:34:56 12345678 abc [INFO Client 1234] You have entered The Coast.").toList))
        none 0
      = (.ok [.zoneEnter (("2024/01/15 12:34:56").toList) (("The Coast").toList)], 79)
    ∧ watch_pass
        (some (("2024/01/15 12:34:56 12345678 abc [INFO Client 1234] You have entered The Co").toList))
        none 0
      = ([], 75)
    ∧ watch_pass
        (some (("2024/01/15 12:34:56 12345678 abc [INFO Client 1234] You have entered The Coast.\n").toList))
        none 75
      = ([], 80) := by
  refine ⟨?_, ?_, ?_⟩ <;> rfl

/-- Claim C4 counterexample: with the log file absent but watcher
construction succeeding and the parent directory watchable, `start` succeeds
and spawns the loop thread — the `fs::metadata` failure is silently ignored
(`if let Ok(metadata)`), contradicting the claim that `start` fails when the
file does not exist. -/
theorem C4_counterexample_missing_file_ok :
    LogWatcher.start
        { fileLen := none, watcherNewOk := true, hasParent := true, watchParentOk := true } 0
      = (.ok true, 0) := rfl

/-- Claim C4 amended: `start` fails exactly when watcher construction fails
or the path has a parent directory that cannot be watched; a missing log
file by itself is not an error — the metadata failure is ignored, the cursor
keeps its prior value, and the loop thread is spawned. -/
theorem C4_start_amended (env : StartEnv) (pos : Nat) :
    ((LogWatcher.start env pos).1 = .error ()
        ↔ (env.watcherNewOk = false ∨ (env.hasParent = true ∧ env.watchParentOk = false)))
    ∧ (LogWatcher.start env pos).2
        = (match env.fileLen with
            | some n => n
            | none => pos)
    ∧ (env.fileLen = none → env.watcherNewOk = true →
        (env.hasParent = true → env.watchParentOk = true) →
        LogWatcher.start env pos = (.ok true, pos)) := by
  obtain ⟨fl, w, hp, wp⟩ := env
  cases w <;> cases hp <;> cases wp <;> cases fl <;> simp [LogWatcher.start]

theorem C4_start_amended_witness :
    LogWatcher.start
        { fileLen := none, watcherNewOk := true, hasParent := true, watchParentOk := true } 5
      = (.ok true, 5) :=
  (C4_start_amended _ 5).2.2 rfl rfl (fun _ => rfl)

theorem try_acquire_fields (l : RateLimiter) (e : ℚ) :
    (l.try_acquire e).2.max_tokens = l.max_tokens
    ∧ (l.try_acquire e).2.refill_rate = l.refill_rate := by
  simp only [RateLimiter.try_acquire, RateLimiter.refill]
  split <;> simp

theorem try_acquire_bounds (l : RateLimiter) (e : ℚ)
    (h0 : 0 ≤ l.tokens) (h1 : l.tokens ≤ l.max_tokens)
    (he : 0 ≤ e) (hr : 0 ≤ l.refill_rate) :
    0 ≤ (l.try_acquire e).2.tokens ∧ (l.try_acquire e).2.tokens ≤ l.max_tokens := by
  have hmax : (0 : ℚ) ≤ l.max_tokens := le_trans h0 h1
  have ht0 : 0 ≤ min (l.tokens + e * l.refill_rate) l.max_tokens :=
    le_min (add_nonneg h0 (mul_nonneg he hr)) hmax
  have ht1 : min (l.tokens + e * l.refill_rate) l.max_tokens ≤ l.max_tokens :=
    min_le_right _ _
  simp only [RateLimiter.try_acquire, RateLimiter.refill]
  split
  case isTrue h =>
    constructor
    · simp only
      linarith
    · simp only
      linarith
  case isFalse h => exact ⟨ht0, ht1⟩

theorem runCalls_fields (l : RateLimiter) (es : List ℚ) :
    (runCalls l es).2.max_tokens = l.max_tokens
    ∧ (runCalls l es).2.refill_rate = l.refill_rate := by
  induction es generalizing l with
  | nil => simp [runCalls]
  | cons e es ih =>
    have h1 := try_acquire_fields l e
    have h2 := ih (l.try_acquire e).2
    simp only [runCalls]
    exact ⟨h2.1.trans h1.1, h2.2.trans h1.2⟩

theorem runCalls_bounds (es : List ℚ) (l : RateLimiter)
    (h0 : 0 ≤ l.tokens) (h1 : l.tokens ≤ l.max_tokens) (hr : 0 ≤ l.refill_rate)
    (hes : ∀ e ∈ es, 0 ≤ e) :
    0 ≤ (runCalls l es).2.tokens
    ∧ (runCalls l es).2.tokens ≤ (runCalls l es).2.max_tokens := by
  induction es generalizing l with
  | nil => exact ⟨h0, h1⟩
  | cons e es ih =>
    have hb := try_acquire_bounds l e h0 h1 (hes e (by simp)) hr
    have hf := try_acquire_fields l e
    have hrec := ih (l.try_acquire e).2 hb.1 (by rw [hf.1]; exact hb.2)
      (by rw [hf.2]; exact hr) (fun x hx => hes x (List.mem_cons_of_mem _ hx))
    simpa only [runCalls] using hrec

/-- Claim C5 (confirmed): on a fresh limiter with `max_tokens = 10` and
`refill_rate = 5`, after any sequence of `try_acquire` calls (arbitrary
nonnegative elapsed times) the token count satisfies `0 ≤ tokens ≤ 10`
(every prefix of a call sequence is itself a sequence, so this bounds every
observation point); ten immediate calls (elapsed time 0) all succeed; an
eleventh immediate call fails and does not change the token count. -/
theorem C5_rate_limiter_invariant :
    (∀ es : List ℚ, (∀ e ∈ es, 0 ≤ e) →
        0 ≤ (runCalls (RateLimiter.new 10 5) es).2.tokens
        ∧ (runCalls (RateLimiter.new 10 5) es).2.tokens ≤ 10)
    ∧ (runCalls (RateLimiter.new 10 5) (List.replicate 10 0)).1 = List.replicate 10 true
    ∧ ((runCalls (RateLimiter.new 10 5) (List.replicate 10 0)).2.try_acquire 0).1 = false
    ∧ ((runCalls (RateLimiter.new 10 5) (List.replicate 10 0)).2.try_acquire 0).2.tokens
        = (runCalls (RateLimiter.new 10 5) (List.replicate 10 0)).2.tokens := by
  refine ⟨?_, ?_, ?_, ?_⟩
  · intro es hes
    have hm := runCalls_fields (RateLimiter.new 10 5) es
    have hb := runCalls_bounds es (RateLimiter.new 10 5)
      (by norm_num [RateLimiter.new]) (by norm_num [RateLimiter.new])
      (by norm_num [RateLimiter.new]) hes
    refine ⟨hb.1, ?_⟩
    have := hb.2
    rw [hm.1] at this
    simpa [RateLimiter.new] using this
  · norm_num [List.replicate, runCalls, RateLimiter.try_acquire, RateLimiter.refill,
      RateLimiter.new, min_def]
  · norm_num [List.replicate, runCalls, RateLimiter.try_acquire, RateLimiter.refill,
      RateLimiter.new, min_def]
  · norm_num [List.replicate, runCalls, RateLimiter.try_acquire, RateLimiter.refill,
      RateLimiter.new, min_def]

theorem C5_rate_limiter_invariant_witness :
    0 ≤ (runCalls (RateLimiter.new 10 5) [0, 1]).2.tokens
    ∧ (runCalls (RateLimiter.new 10 5) [0, 1]).2.tokens ≤ 10 :=
  C5_rate_limiter_invariant.1 [0, 1] (by decide)

/-- Claim C6 (confirmed): `get_cached` returns the stored payload exactly
when the entry exists and `now < expires_at` — an expired entry and an
absent entry are both plain misses (the read is a pure lookup; nothing is
deleted on a miss); `cache_response` unconditionally overwrites the entry
for the key with expiry `now + ttl` and leaves every other key unchanged;
hence a payload written at `now` is returned for any read at
`now' < now + ttl`. -/
theorem C6_cache_semantics :
    (∀ (cache : Cache) (url : String) (now : Nat) (d : String),
        get_cached cache url now = some d
          ↔ ∃ e, lookupC cache url = some e ∧ e.data = d ∧ now < e.expires_at)
    ∧ (∀ (cache : Cache) (url d : String) (now ttl : Nat),
        lookupC (cache_response cache url d now ttl) url
          = some { data := d, expires_at := now + ttl })
    ∧ (∀ (cache : Cache) (url d : String) (now ttl : Nat) (u : String), u ≠ url →
        lookupC (cache_response cache url d now ttl) u = lookupC cache u)
    ∧ (∀ (cache : Cache) (url d : String) (now ttl now' : Nat), now' < now + ttl →
        get_cached (cache_response cache url d now ttl) url now' = some d) := by
  refine ⟨?_, ?_, ?_, ?_⟩
  · intro cache url now d
    constructor
    · intro h
      cases he : lookupC cache url with
      | none => simp [get_cached, he] at h
      | some e =>
        simp only [get_cached, he] at h
        by_cases hn : now < e.expires_at
        · rw [if_pos hn] at h
          exact ⟨e, rfl, Option.some.inj h, hn⟩
        · rw [if_neg hn] at h
          simp at h
    · rintro ⟨e, he, hd, hn⟩
      simp [get_cached, he, hn, hd]
  · intro cache url d now ttl
    exact lookupC_insertC_self _ _ _
  · intro cache url d now ttl u hu
    exact lookupC_insertC_other _ _ _ _ hu
  · intro cache url d now ttl now' h
    simp [get_cached, cache_response, lookupC_insertC_self, h]

theorem C6_cache_semantics_witness :
    lookupC (cache_response [] ("a") ("p") 0 5) ("b") = lookupC [] ("b")
    ∧ get_cached (cache_response [] ("a") ("p") 0 5) ("a") 3 = some ("p") :=
  ⟨C6_cache_semantics.2.2.1 [] "a" "p" 0 5 "b" (by decide),
   C6_cache_semantics.2.2.2 [] "a" "p" 0 5 3 (by decide)⟩

/-- Claim C3 counterexample: on a cache miss, a response with the non-success
status 500 does NOT yield a generic transport error — the source checks only
403 and 429 — instead its body is stored in the cache (TTL 60 for
`get_characters`) and deserialized, here successfully. -/
theorem C3_counterexample_status500_cached :
    (get_characters (fun s => some s) ("A") [] 0
        (some { status := 500, body := "B" })).result = .ok ("B")
    ∧ lookupC (get_characters (fun s => some s) ("A") [] 0
        (some { status := 500, body := "B" })).cache' (charsUrl ("A"))
      = some { data := "B", expires_at := 60 } := by
  refine ⟨rfl, ?_⟩
  simp [get_characters, fetch_op, get_cached, lookupC, cache_response, lookupC_insertC_self]

/-- Claim C3 amended: on a cache miss, status 403 yields the private-profile
error and 429 the rate-limited error, neither touching the cache; a
transport error arises only when the request itself fails; every other
response — success or non-success alike, there is no further status check —
has its raw body stored in the cache with the operation's TTL and is then
deserialized.  (The 403/429 classification and the caching-on-success of the
original claim hold; the "other non-success → transport error" part does
not.) -/
theorem C3_fetch_status_amended {α : Type} (decode : String → Option α) (ttl : Nat)
    (url : String) (cache : Cache) (now : Nat)
    (hmiss : get_cached cache url now = none) :
    fetch_op decode ttl url cache now none
        = { result := .error .transport, cache' := cache,
            usedLimiter := true, usedNetwork := true }
    ∧ (∀ body, fetch_op decode ttl url cache now (some { status := 403, body := body })
        = { result := .error .privateProfile, cache' := cache,
            usedLimiter := true, usedNetwork := true })
    ∧ (∀ body, fetch_op decode ttl url cache now (some { status := 429, body := body })
        = { result := .error .rateLimited, cache' := cache,
            usedLimiter := true, usedNetwork := true })
    ∧ (∀ (s : Nat) (body : String), s ≠ 403 → s ≠ 429 →
        (fetch_op decode ttl url cache now (some { status := s, body := body })).cache'
            = cache_response cache url body now ttl
        ∧ (fetch_op decode ttl url cache now (some { status := s, body := body })).result
            = (match decode body with
                | some v => .ok v
                | none => .error .deser)) := by
  refine ⟨?_, ?_, ?_, ?_⟩
  · simp [fetch_op, hmiss]
  · intro body
    simp [fetch_op, hmiss]
  · intro body
    simp [fetch_op, hmiss]
  · intro s body h403 h429
    constructor <;> simp [fetch_op, hmiss, h403, h429]

theorem C3_fetch_status_amended_witness :
    fetch_op (fun s => some s) 60 ("u") [] 0 none
      = { result := .error .transport, cache' := [],
          usedLimiter := true, usedNetwork := true } :=
  (C3_fetch_status_amended (fun s => some s) 60 "u" [] 0 rfl).1

/-- Claim C9 (confirmed): for every fetch operation, a response whose status
is neither 403 nor 429 has its raw body stored in the cache with the
operation's TTL before deserialization is attempted; consequently, even when
the call returns a deserialization error, a second call for the same key
within the TTL window is served that body from the cache — it does not touch
the rate limiter or the network (whatever the network would answer), returns
the same deserialization outcome, and leaves the cache unchanged. -/
theorem C9_cache_before_deserialize {α : Type} (decode : String → Option α) (ttl : Nat)
    (url : String) (cache : Cache) (now now2 s : Nat) (body : String)
    (hmiss : get_cached cache url now = none) (h403 : s ≠ 403) (h429 : s ≠ 429)
    (hdecode : decode body = none) (hfresh : now2 < now + ttl) :
    (fetch_op decode ttl url cache now (some { status := s, body := body })).result
        = .error .deser
    ∧ (fetch_op decode ttl url cache now (some { status := s, body := body })).cache'
        = cache_response cache url body now ttl
    ∧ get_cached (fetch_op decode ttl url cache now
          (some { status := s, body := body })).cache' url now2 = some body
    ∧ ∀ resp2 : Option HttpResponse,
        (fetch_op decode ttl url (fetch_op decode ttl url cache now
            (some { status := s, body := body })).cache' now2 resp2).usedLimiter = false
        ∧ (fetch_op decode ttl url (fetch_op decode ttl url cache now
            (some { status := s, body := body })).cache' now2 resp2).usedNetwork = false
        ∧ (fetch_op decode ttl url (fetch_op decode ttl url cache now
            (some { status := s, body := body })).cache' now2 resp2).result = .error .deser
        ∧ (fetch_op decode ttl url (fetch_op decode ttl url cache now
            (some { status := s, body := body })).cache' now2 resp2).cache'
          = (fetch_op decode ttl url cache now
              (some { status := s, body := body })).cache' := by
  have hcache : (fetch_op decode ttl url cache now
      (some { status := s, body := body })).cache' = cache_response cache url body now ttl := by
    simp [fetch_op, hmiss, h403, h429]
  have hhit2 : get_cached (cache_response cache url body now ttl) url now2 = some body := by
    simp [get_cached, cache_response, lookupC_insertC_self, hfresh]
  have hhit : get_cached (fetch_op decode ttl url cache now
      (some { status := s, body := body })).cache' url now2 = some body := by
    rw [hcache]
    exact hhit2
  refine ⟨?_, hcache, hhit, ?_⟩
  · simp [fetch_op, hmiss, h403, h429, hdecode]
  · intro resp2
    rw [hcache]
    refine ⟨?_, ?_, ?_, ?_⟩ <;> simp [fetch_op, hhit2, hdecode]

theorem C9_cache_before_deserialize_witness :
    get_cached (fetch_op (fun _ => (none : Option Nat)) 30 ("u") [] 0
        (some { status := 500, body := "B" })).cache' ("u") 10 = some ("B")
    ∧ (fetch_op (fun _ => (none : Option Nat)) 30 ("u")
        (fetch_op (fun _ => (none : Option Nat)) 30 ("u") [] 0
          (some { status := 500, body := "B" })).cache' 10 none).usedLimiter = false := by
  have h := C9_cache_before_deserialize (fun _ => (none : Option Nat)) 30 "u" [] 0 10 500 "B"
    rfl (by decide) (by decide) rfl (by decide)
  exact ⟨h.2.2.1, (h.2.2.2 none).1⟩
